import Mathlib

/-!
Shallow embedding of `src/CSVParser.h` (class `CSVReader<Fields...>` and its
nested `iterator`).

Modelling choices, each traceable to the source:

* `std::istream` / `std::stringstream` state is a list of characters, a read
  position, and the `eofbit` / `failbit` flags (`IStream`).  `std::getline`
  is modelled by `getline`: a failed sentry (eofbit or failbit already set)
  sets failbit and extracts nothing; extraction up to the delimiter consumes
  the delimiter without storing it; hitting end-of-data sets eofbit, and
  additionally failbit when no character at all was extracted.
* The variadic field pack `Fields...` is modelled by a list of `FieldTy`
  (the claims instantiate it at `int` and `std::string`); a parsed value is
  a `CVal`, and a `Row` (`std::tuple<Fields...>`) is a `List CVal` in
  declaration order.
* `operator>>` into an `int` (used by `parse`) skips leading whitespace,
  reads an optional sign and a decimal digit run, and on failure writes `0`
  (the C++11 rule for failed arithmetic extraction).  `operator>>` into a
  `std::string` skips leading whitespace and reads one whitespace-delimited
  token; on failure the default-constructed empty string is left unchanged.
* The `CSVReader*` member of the iterator is modelled as `Option Nat`
  (a reader identity standing for the pointer value; `none` is `nullptr`).
* Both `throw std::out_of_range("EOF")` sites (in `operator++` and in
  `next_row`) are modelled as `Except.error CsvErr.outOfRangeEOF`; a C++
  throw happens before any member assignment at both sites, so an error
  result leaves the modelled state unchanged.
* `next_row` evaluates the pack expansion `parse<Fields>(ss)...` inside a
  parenthesized constructor call; the primary embedding `runFields` uses
  the textual left-to-right order, and `runFieldsOrdered` makes the
  evaluation order explicit, since C++ leaves the order of evaluation of
  those constructor arguments unspecified.
-/

/-- The field types the claims instantiate the variadic pack with:
`int` and `std::string`. -/
inductive FieldTy
  | intTy
  | strTy
deriving DecidableEq, Repr

/-- A parsed field value. -/
inductive CVal
  | vInt (n : Int)
  | vStr (s : String)
deriving DecidableEq, Repr

/-- Value-initialization of a field, which is what `std::tuple`'s default
constructor performs on each element (`int` becomes `0`, `std::string`
becomes the empty string). -/
def defaultVal : FieldTy → CVal
  | .intTy => .vInt 0
  | .strTy => .vStr ""

/-- A default-constructed `value_type` (= `std::tuple<Fields...>`): every
element value-initialized. -/
def defaultRow (tys : List FieldTy) : List CVal := tys.map defaultVal

/-- State of a `std::istream` / `std::stringstream`: the underlying
character sequence, the read position, and the `eofbit` / `failbit`
flags. -/
structure IStream where
  data : List Char
  pos : Nat
  eofbit : Bool
  failbit : Bool
deriving DecidableEq, Repr

/-- A freshly constructed stream over the given contents (as built by
`std::stringstream(tmp)`, or an input stream positioned at the start). -/
def mkStream (s : String) : IStream := ⟨s.toList, 0, false, false⟩

/-- The characters not yet consumed. -/
def streamRemaining (s : IStream) : List Char := s.data.drop s.pos

/-- Splits a character list at the first occurrence of `delim`: returns the
prefix before it and, when the delimiter occurs, the suffix after it. -/
def takeToDelim (delim : Char) : List Char → List Char × Option (List Char)
  | [] => ([], none)
  | c :: cs =>
    if c = delim then ([], some cs)
    else
      let r := takeToDelim delim cs
      (c :: r.1, r.2)

/-- Model of `std::getline(stream, tmp, delim)` where `tmp` is a fresh empty
string (as at both call sites in the source).  If the stream is already in
an eof or fail state the sentry fails: failbit is set and the result is
empty.  Otherwise characters up to the first `delim` are extracted, the
delimiter itself being consumed but not stored; if the end of the data is
reached instead, eofbit is set, and failbit as well when not a single
character was extracted. -/
def getline (s : IStream) (delim : Char) : String × IStream :=
  if s.eofbit || s.failbit then
    (String.mk [], { s with failbit := true })
  else if streamRemaining s = [] then
    (String.mk [], { s with eofbit := true, failbit := true })
  else
    let r := takeToDelim delim (streamRemaining s)
    match r.2 with
    | some _ => (String.mk r.1, { s with pos := s.pos + r.1.length + 1 })
    | none => (String.mk r.1, { s with pos := s.data.length, eofbit := true })

/-- The six characters the default C++ locale classifies as whitespace. -/
def isStreamSpace (c : Char) : Bool :=
  c = ' ' || c = '\t' || c = '\n' || c = '\r' || c = '\x0b' || c = '\x0c'

/-- Numeric value of a run of decimal digits. -/
def natOfDigits (ds : List Char) : Nat :=
  ds.foldl (fun acc c => acc * 10 + (c.toNat - 48)) 0

/-- Decimal integer extraction after whitespace skipping: optional sign then
a digit run; with no digits the extraction fails and writes `0` (C++11
behavior of a failed arithmetic `operator>>`). -/
def readIntFrom : List Char → Int
  | '-' :: rest =>
    let ds := rest.takeWhile Char.isDigit
    if ds = [] then 0 else -(natOfDigits ds : Int)
  | '+' :: rest =>
    let ds := rest.takeWhile Char.isDigit
    if ds = [] then 0 else (natOfDigits ds : Int)
  | cs =>
    let ds := cs.takeWhile Char.isDigit
    if ds = [] then 0 else (natOfDigits ds : Int)

/-- Model of `std::stringstream(tmp) >> t` for `t : int` declared just
before the extraction (so on failure the value is `0`). -/
def readInt (s : String) : Int := readIntFrom (s.toList.dropWhile isStreamSpace)

/-- Model of `std::stringstream(tmp) >> t` for a default-constructed
`t : std::string`: skip leading whitespace, then one whitespace-delimited
token; on failure `t` keeps its empty default. -/
def readStr (s : String) : String :=
  String.mk ((s.toList.dropWhile isStreamSpace).takeWhile (fun c => !isStreamSpace c))

/-- Dispatch of `operator>>` on the declared field type. -/
def extract : FieldTy → String → CVal
  | .intTy, s => .vInt (readInt s)
  | .strTy, s => .vStr (readStr s)

/-- Embeds `CSVReader::parse<T>(ss)` (source lines 95-104): `getline` one
separator-delimited substring out of the line stream, then convert it with
`operator>>` into a fresh `T`. -/
def parse (sep : Char) (ty : FieldTy) (ss : IStream) : CVal × IStream :=
  let r := getline ss sep
  (extract ty r.1, r.2)

/-- The pack expansion `parse<Fields>(ss)...` evaluated left to right (the
declaration order of the fields), threading the line stream. -/
def runFields (sep : Char) : List FieldTy → IStream → List CVal × IStream
  | [], ss => ([], ss)
  | ty :: tys, ss =>
    let r := parse sep ty ss
    let rest := runFields sep tys r.2
    (r.1 :: rest.1, rest.2)

/-- Embeds `CSVReader::has_next_row` (source lines 106-108):
`!stream_.eof()`. -/
def has_next_row (s : IStream) : Bool := !s.eofbit

/-- The one exception the source ever throws: `std::out_of_range("EOF")`,
thrown both by `operator++` on a null reader and by `next_row` at eof. -/
inductive CsvErr
  | outOfRangeEOF
deriving DecidableEq, Repr

/-- Embeds `CSVReader::next_row` (source lines 110-118): throw when
`has_next_row()` is false; else `getline` one line off the input stream,
wrap it in a fresh `stringstream`, and build the tuple of parsed fields
(left-to-right evaluation of the pack expansion). -/
def next_row (sep : Char) (tys : List FieldTy) (s : IStream) :
    Except CsvErr (List CVal × IStream) :=
  if !has_next_row s then .error .outOfRangeEOF
  else
    let line := getline s '\n'
    let row := runFields sep tys (mkStream line.1)
    .ok (row.1, line.2)

/-- Embeds `CSVReader::iterator`: the cached row `current_` and the
`CSVReader*` member, with `none` standing for `nullptr`. -/
structure CSVIterator where
  current_ : List CVal
  reader : Option Nat
deriving DecidableEq, Repr

/-- Embeds `iterator::operator!=` (source lines 56-58): pointer comparison
`reader != other.reader`. -/
def iterNeq (a b : CSVIterator) : Bool := a.reader != b.reader

/-- Embeds `iterator::operator*` (source lines 62-64): returns `current_`
unconditionally, with no state check and no exception. -/
def iterDeref (it : CSVIterator) : List CVal := it.current_

/-- Embeds `CSVReader::end()` / the default iterator constructor (source
lines 27-28, 87-89): null reader, default-constructed `current_`. -/
def endCSV (tys : List FieldTy) : CSVIterator := ⟨defaultRow tys, none⟩

/-- Combined state of a reader's stream and one iterator over it (the
iterator holds the reader by pointer; the reader holds the stream by
reference, so advancing the iterator moves the stream). -/
structure MState where
  stream : IStream
  it : CSVIterator
deriving DecidableEq, Repr

/-- Embeds `iterator::operator++` (source lines 40-50): throw
`std::out_of_range` when the reader pointer is null; else when
`has_next_row()` is false, null out the reader pointer (note: `current_` is
not assigned); else assign `current_ = reader->next_row()`. -/
def iterNext (sep : Char) (tys : List FieldTy) (st : MState) : Except CsvErr MState :=
  match st.it.reader with
  | none => .error .outOfRangeEOF
  | some rid =>
    if !has_next_row st.stream then
      .ok { stream := st.stream, it := { current_ := st.it.current_, reader := none } }
    else
      match next_row sep tys st.stream with
      | .error e => .error e
      | .ok rs => .ok { stream := rs.2, it := { current_ := rs.1, reader := some rid } }

/-- Embeds `CSVReader::begin()` (source lines 32-34, 81-83): construct an
iterator bound to the reader (cached row default-constructed), then
immediately `operator++` once to prime it. -/
def beginCSV (sep : Char) (tys : List FieldTy) (rid : Nat) (s : IStream) :
    Except CsvErr MState :=
  iterNext sep tys { stream := s, it := { current_ := defaultRow tys, reader := some rid } }

/-- The rows produced by the idiomatic loop `for (it = begin; it != end;
++it) use(*it)`, with fuel bounding the number of loop tests. -/
def collectRows (sep : Char) (tys : List FieldTy) : Nat → MState → List (List CVal)
  | 0, _ => []
  | fuel + 1, st =>
    if iterNeq st.it (endCSV tys) then
      iterDeref st.it ::
        (match iterNext sep tys st with
         | .ok st' => collectRows sep tys fuel st'
         | .error _ => [])
    else []

/-- `has_next_row` as an explicit state transformer: `stream_.eof()` is a
const observation of the stream flags and returns the state unchanged. -/
def has_next_row_st (s : IStream) : Bool × IStream := (!s.eofbit, s)

/-- `n` consecutive `has_next_row` calls on a reader/iterator state with no
intervening advance, collecting the returned booleans and threading the
state. -/
def hasNextCalls : Nat → MState → List Bool × MState
  | 0, st => ([], st)
  | n + 1, st =>
    let c := has_next_row_st st.stream
    let r := hasNextCalls n { stream := c.2, it := st.it }
    (c.1 :: r.1, r.2)

/-- The pack expansion `parse<Fields>(ss)...` under an explicit evaluation
order of the constructor arguments: the k-th element of `order` is the
index of the argument evaluated k-th, and the result records which tuple
slot each parsed value belongs to.  (C++ leaves this order unspecified for
a parenthesized constructor call.) -/
def runFieldsOrdered (sep : Char) (tys : List FieldTy) :
    List Nat → IStream → List (Nat × CVal) × IStream
  | [], ss => ([], ss)
  | i :: rest, ss =>
    let r := parse sep (tys.getD i .intTy) ss
    let rs := runFieldsOrdered sep tys rest r.2
    ((i, r.1) :: rs.1, rs.2)

/-- Assembles the tuple from the slot-indexed parsed values. -/
def rowFromAssigns (n : Nat) (assigns : List (Nat × CVal)) : List CVal :=
  (List.range n).map (fun i => ((assigns.lookup i).getD (.vInt 0)))

/-- `next_row` with the constructor-argument evaluation order made
explicit; `next_rowOrdered sep tys (List.range tys.length)` is the
left-to-right reading embodied in `next_row`. -/
def next_rowOrdered (sep : Char) (tys : List FieldTy) (order : List Nat) (s : IStream) :
    Except CsvErr (List CVal × IStream) :=
  if !has_next_row s then .error .outOfRangeEOF
  else
    let line := getline s '\n'
    let r := runFieldsOrdered sep tys order (mkStream line.1)
    .ok (rowFromAssigns tys.length r.1, line.2)

/-- Joins segments with a single separator character between consecutive
segments (the shape of one well-formed line). -/
def joinChars (sep : Char) : List (List Char) → List Char
  | [] => []
  | [t] => t
  | t :: u :: rest => t ++ sep :: joinChars sep (u :: rest)

/-- The concrete two-line input of the C1 scenario. -/
def input2Lines : String := "1,hello\n2,world\n"

/-- The concrete excess-separator line of the C8 scenario. -/
def line789 : String := "7,8,9"

/-- The concrete one-line input of the C3 scenario. -/
def line1hello : String := "1,hello"

/-- The (int, string) schema used by the scenarios. -/
def tysIS : List FieldTy := [.intTy, .strTy]

/-- A stream that has hit end of input (eofbit set), as the reader's stream
looks after the last `getline` consumed everything including a final
missing newline. -/
def eofStream : IStream := ⟨[], 0, true, false⟩

/-- An Active machine state holding a nondefault cached row, whose stream
is exhausted: the situation of C4/C5. -/
def c4State : MState :=
  { stream := eofStream
  , it := { current_ := [CVal.vInt 1, CVal.vStr "hello"], reader := some 0 } }

/-- A machine state whose iterator is already Exhausted (null reader). -/
def exhaustedState : MState := { stream := mkStream "", it := endCSV tysIS }

/-! Helper lemmas about `takeToDelim`, `getline` and the field loop.  These
serve the claim theorems below and are not themselves claims. -/

theorem takeToDelim_append (delim : Char) (pre rest : List Char) (h : delim ∉ pre) :
    takeToDelim delim (pre ++ delim :: rest) = (pre, some rest) := by
  induction pre with
  | nil => simp [takeToDelim]
  | cons c cs ih =>
    rw [List.mem_cons, not_or] at h
    have hc : ¬ c = delim := fun hh => h.1 hh.symm
    simp [takeToDelim, hc, ih h.2]

theorem takeToDelim_not_mem (delim : Char) (l : List Char) (h : delim ∉ l) :
    takeToDelim delim l = (l, none) := by
  induction l with
  | nil => rfl
  | cons c cs ih =>
    rw [List.mem_cons, not_or] at h
    have hc : ¬ c = delim := fun hh => h.1 hh.symm
    simp [takeToDelim, hc, ih h.2]

theorem getline_atEnd (s : IStream) (delim : Char)
    (he : s.eofbit = false) (hf : s.failbit = false) (hr : streamRemaining s = []) :
    getline s delim = (String.mk [], { s with eofbit := true, failbit := true }) := by
  simp [getline, he, hf, hr]

theorem getline_toEnd (s : IStream) (delim : Char) (l : List Char)
    (he : s.eofbit = false) (hf : s.failbit = false)
    (hr : streamRemaining s = l) (hne : l ≠ []) (hd : delim ∉ l) :
    getline s delim = (String.mk l, { s with pos := s.data.length, eofbit := true }) := by
  rw [getline, he, hf, hr, takeToDelim_not_mem delim l hd]
  simp [hne]

theorem getline_delim (s : IStream) (delim : Char) (pre rest : List Char)
    (he : s.eofbit = false) (hf : s.failbit = false)
    (hr : streamRemaining s = pre ++ delim :: rest) (hp : delim ∉ pre) :
    getline s delim = (String.mk pre, { s with pos := s.pos + pre.length + 1 })
    ∧ streamRemaining { s with pos := s.pos + pre.length + 1 } = rest := by
  constructor
  · rw [getline, he, hf, hr, takeToDelim_append delim pre rest hp]
    simp
  · have hr' : s.data.drop s.pos = pre ++ delim :: rest := hr
    show s.data.drop (s.pos + pre.length + 1) = rest
    have hsum : s.pos + pre.length + 1 = s.pos + (pre.length + 1) := by omega
    rw [hsum, ← List.drop_drop, hr']
    have hsplit : pre ++ delim :: rest = (pre ++ [delim]) ++ rest := by simp
    have hlen : pre.length + 1 = (pre ++ [delim]).length := by simp
    rw [hsplit, hlen, List.drop_left]

theorem runFields_join (sep : Char) (tys : List FieldTy) :
    ∀ (segs : List (List Char)) (s : IStream),
      s.eofbit = false → s.failbit = false →
      streamRemaining s = joinChars sep segs →
      tys.length ≤ segs.length →
      (∀ t ∈ segs, sep ∉ t) →
      (runFields sep tys s).1
        = List.zipWith (fun ty seg => extract ty (String.mk seg)) tys segs := by
  induction tys with
  | nil => intro segs s _ _ _ _ _; simp [runFields]
  | cons ty tys ih =>
    intro segs s he hf hr hlen hsep
    match segs with
    | [] => simp at hlen
    | [seg] =>
      have htys : tys = [] := by simpa using hlen
      subst htys
      by_cases hseg : seg = []
      · subst hseg
        have hr0 : streamRemaining s = [] := by simpa [joinChars] using hr
        simp [runFields, parse, getline_atEnd s sep he hf hr0]
      · have hj : joinChars sep [seg] = seg := rfl
        rw [hj] at hr
        have hg := getline_toEnd s sep seg he hf hr hseg (hsep seg (by simp))
        simp [runFields, parse, hg]
    | seg :: seg2 :: rest =>
      have hj : joinChars sep (seg :: seg2 :: rest)
          = seg ++ sep :: joinChars sep (seg2 :: rest) := rfl
      rw [hj] at hr
      obtain ⟨hg, hrem⟩ := getline_delim s sep seg (joinChars sep (seg2 :: rest))
        he hf hr (hsep seg (by simp))
      have hlen' : tys.length ≤ (seg2 :: rest).length := by
        simp [List.length_cons] at hlen ⊢; omega
      have ih' := ih (seg2 :: rest) { s with pos := s.pos + seg.length + 1 }
        (by simp [he]) (by simp [hf]) hrem hlen'
        (fun t ht => hsep t (List.mem_cons_of_mem _ ht))
      simp [runFields, parse, hg, ih']

theorem zipWith_take_length {α β γ : Type} (f : α → β → γ) :
    ∀ (l : List α) (l2 : List β),
      List.zipWith f l l2 = List.zipWith f l (l2.take l.length)
  | [], l2 => by simp
  | a :: l, [] => by simp
  | a :: l, b :: l2 => by
    simp [List.length_cons, List.take_succ_cons, zipWith_take_length f l l2]

theorem not_mem_joinChars (c sep : Char) (hne : c ≠ sep) :
    ∀ (segs : List (List Char)), (∀ t ∈ segs, c ∉ t) → c ∉ joinChars sep segs := by
  intro segs
  induction segs with
  | nil => intro _; simp [joinChars]
  | cons t rest ih =>
    intro h
    cases rest with
    | nil => simpa [joinChars] using h t (by simp)
    | cons u rest2 =>
      have hj : joinChars sep (t :: u :: rest2)
          = t ++ sep :: joinChars sep (u :: rest2) := rfl
      rw [hj]
      simp only [List.mem_append, List.mem_cons, not_or]
      exact ⟨h t (by simp), hne,
        ih (fun x hx => h x (List.mem_cons_of_mem _ hx))⟩

/-- C1 (code divergence): the spec says the two-line input
"1,hello\n2,world\n" with field types (int, string) yields exactly the two
rows (1, "hello") and (2, "world"); the code yields a third row (0, "")
because `has_next_row` tests `!stream_.eof()`, and eofbit is still clear
after the `getline` for the second row consumed the final newline, so one
more `next_row` call parses an empty line before eofbit is finally set.
This theorem evaluates the iteration loop of the source on that input. -/
theorem c1_three_rows_on_two_line_input :
    (beginCSV ',' tysIS 0 (mkStream input2Lines)).map (collectRows ',' tysIS 10)
      = .ok [[CVal.vInt 1, CVal.vStr "hello"], [CVal.vInt 2, CVal.vStr "world"],
             [CVal.vInt 0, CVal.vStr ""]] := rfl

/-- C2 (code divergence): the spec says `begin()` on an empty stream
immediately yields a cursor equal to `end()`; in the code a fresh empty
stream has eofbit clear, so `has_next_row()` returns true, the priming
`operator++` parses a row (0, "") from the failed `getline`, and `begin()`
is an Active cursor, unequal to `end()` under `operator!=`. -/
theorem c2_begin_on_empty_is_active :
    (beginCSV ',' tysIS 0 (mkStream "")).map
        (fun st => (st.it.reader, iterDeref st.it, iterNeq st.it (endCSV tysIS)))
      = .ok (some 0, [CVal.vInt 0, CVal.vStr ""], true) := rfl

/-- C3 (code divergence): the claim says field i is always parsed from the
i-th separator-delimited substring.  The source builds the row as
`std::tuple<Fields...>(parse<Fields>(ss)...)`, a parenthesized constructor
call whose argument evaluation order C++ leaves unspecified, and each
`parse` consumes one substring from the shared line stream: under
right-to-left evaluation (order [1, 0], as mainstream compilers produce for
such calls) the line "1,hello" with fields (int, string) yields the row
(0, "1") — field 0 received substring 1 — while left-to-right evaluation
(order [0, 1]) yields the intended (1, "hello"). -/
theorem c3_eval_order_dependent_row :
    (next_rowOrdered ',' tysIS [1, 0] (mkStream line1hello)).map Prod.fst
      = .ok [CVal.vInt 0, CVal.vStr "1"]
    ∧ (next_rowOrdered ',' tysIS [0, 1] (mkStream line1hello)).map Prod.fst
      = .ok [CVal.vInt 1, CVal.vStr "hello"] := ⟨rfl, rfl⟩

/-- C4 (counterexample): advancing an Active cursor whose stream is
exhausted nulls the reader pointer but does not clear `current_` (the
source's `operator++` only assigns `reader = nullptr` on that path), so the
previously cached row (1, "hello") — not the default row — remains stored
in the cursor, refuting the claim's "no previously cached Row value remains
stored in the cursor after the transition". -/
theorem c4_cached_row_retained :
    iterNext ',' tysIS c4State
      = .ok { stream := eofStream
            , it := { current_ := [CVal.vInt 1, CVal.vStr "hello"], reader := none } }
    ∧ [CVal.vInt 1, CVal.vStr "hello"] ≠ defaultRow tysIS := ⟨rfl, by decide⟩

/-- C4 (amended): for every Active cursor whose bound reader reports no
next row, Advance transitions the cursor to Exhausted by dropping the
reader binding only; the cached Row field keeps its previous value and the
stream is untouched. -/
theorem c4_exhaust_drops_only_reader (sep : Char) (tys : List FieldTy) (st : MState)
    (rid : Nat) (h : st.it.reader = some rid) (hn : has_next_row st.stream = false) :
    iterNext sep tys st
      = .ok { stream := st.stream
            , it := { current_ := st.it.current_, reader := none } } := by
  simp [iterNext, h, hn]

/-- Witness for the amended C4 at the concrete state `c4State`. -/
theorem c4_exhaust_drops_only_reader_witness :
    c4State.it.reader = some 0 ∧ has_next_row c4State.stream = false ∧
    iterNext ',' tysIS c4State
      = .ok { stream := c4State.stream
            , it := { current_ := c4State.it.current_, reader := none } } :=
  ⟨rfl, rfl, c4_exhaust_drops_only_reader ',' tysIS c4State 0 rfl rfl⟩

/-- C5: dereferencing an Exhausted cursor signals no error and returns a
Row: `operator*` returns `current_` unconditionally, the default-constructed
`end()` sentinel returns the tuple of value-initialized field values, and a
cursor that reached Exhausted by advancing still returns the last Row it
cached while Active. -/
theorem c5_deref_exhausted_total (sep : Char) (tys : List FieldTy) (st : MState)
    (rid : Nat) (h : st.it.reader = some rid) (hn : has_next_row st.stream = false) :
    iterDeref (endCSV tys) = tys.map defaultVal
    ∧ ∃ st', iterNext sep tys st = .ok st' ∧ st'.it.reader = none
        ∧ iterDeref st'.it = st.it.current_ := by
  refine ⟨rfl, { stream := st.stream, it := { current_ := st.it.current_, reader := none } },
    ?_, rfl, rfl⟩
  simp [iterNext, h, hn]

/-- Witness for C5 at the concrete state `c4State`. -/
theorem c5_deref_exhausted_total_witness :
    c4State.it.reader = some 0 ∧ has_next_row c4State.stream = false ∧
    (iterDeref (endCSV tysIS) = tysIS.map defaultVal
     ∧ ∃ st', iterNext ',' tysIS c4State = .ok st' ∧ st'.it.reader = none
         ∧ iterDeref st'.it = c4State.it.current_) :=
  ⟨rfl, rfl, c5_deref_exhausted_total ',' tysIS c4State 0 rfl rfl⟩

/-- C6: advancing a cursor that is already Exhausted (null reader) always
fails with the IllegalAdvance condition, modelled after the source's
`throw std::out_of_range("EOF")`, which is the first statement of
`operator++` — so it never returns a successor state: no silent no-op and
no restart, and the cursor object is untouched by the throw. -/
theorem c6_advance_exhausted_fails (sep : Char) (tys : List FieldTy) (st : MState)
    (h : st.it.reader = none) :
    iterNext sep tys st = .error .outOfRangeEOF
    ∧ ∀ st', iterNext sep tys st ≠ .ok st' := by
  simp [iterNext, h]

/-- Witness for C6 at the concrete state `exhaustedState`. -/
theorem c6_advance_exhausted_fails_witness :
    exhaustedState.it.reader = none ∧
    (iterNext ',' tysIS exhaustedState = .error .outOfRangeEOF
     ∧ ∀ st', iterNext ',' tysIS exhaustedState ≠ .ok st') :=
  ⟨rfl, c6_advance_exhausted_fails ',' tysIS exhaustedState rfl⟩

/-- C7: `next_row` fails (with the EndOfStream condition, the source's
`std::out_of_range("EOF")`) exactly when `has_next_row()` is false at
entry, and when `has_next_row()` is true at entry it returns a Row without
signaling. -/
theorem c7_next_row_error_iff_eof (sep : Char) (tys : List FieldTy) (s : IStream) :
    ((∃ e, next_row sep tys s = .error e) ↔ has_next_row s = false)
    ∧ (has_next_row s = true → ∃ row s', next_row sep tys s = .ok (row, s')) := by
  cases hn : has_next_row s with
  | false =>
    simp [next_row, hn]
    exact ⟨.outOfRangeEOF, trivial⟩
  | true => simp [next_row, hn]

/-- C8: a row is built from only the first N separator-delimited segments
of the line — the value of `next_row` on a line joining any sufficiently
many segments is the zipWith of the declared types with just the first N
segments, so all trailing content past the N-th field is silently
discarded; in particular, with one declared int field the line "7,8,9"
yields the row (7). -/
theorem c8_excess_segments_discarded (sep : Char) (tys : List FieldTy)
    (segs : List (List Char))
    (hlen : tys.length ≤ segs.length)
    (hsep : ∀ t ∈ segs, sep ∉ t)
    (hnl : ∀ t ∈ segs, '\n' ∉ t)
    (hsn : sep ≠ '\n') :
    (next_row sep tys (mkStream (String.mk (joinChars sep segs)))).map Prod.fst
      = .ok (List.zipWith (fun ty seg => extract ty (String.mk seg)) tys
              (segs.take tys.length))
    ∧ (next_row ',' [.intTy] (mkStream line789)).map Prod.fst = .ok [CVal.vInt 7] := by
  constructor
  · have hrem : streamRemaining (mkStream (String.mk (joinChars sep segs)))
        = joinChars sep segs := rfl
    have hnl' : '\n' ∉ joinChars sep segs :=
      not_mem_joinChars '\n' sep (Ne.symm hsn) segs hnl
    have hg1 : (getline (mkStream (String.mk (joinChars sep segs))) '\n').1
        = String.mk (joinChars sep segs) := by
      by_cases hj : joinChars sep segs = []
      · rw [getline_atEnd _ '\n' rfl rfl (by rw [hrem, hj]), hj]
      · rw [getline_toEnd _ '\n' _ rfl rfl hrem hj hnl']
    have hrun := runFields_join sep tys segs
      (mkStream (String.mk (joinChars sep segs))) rfl rfl rfl hlen hsep
    have hcond : (!has_next_row (mkStream (String.mk (joinChars sep segs)))) = false := rfl
    rw [next_row, hcond]
    simp only [Bool.false_eq_true, if_false, Except.map]
    rw [hg1, hrun]
    exact congrArg Except.ok (zipWith_take_length _ tys segs)
  · rfl

/-- Witness for C8 with one declared int field and the three segments 7, 8,
9 (the scenario line "7,8,9"). -/
theorem c8_excess_segments_discarded_witness :
    ((next_row ',' [FieldTy.intTy]
        (mkStream (String.mk (joinChars ',' [['7'], ['8'], ['9']])))).map Prod.fst
      = .ok (List.zipWith (fun ty seg => extract ty (String.mk seg)) [FieldTy.intTy]
              ([['7'], ['8'], ['9']].take 1))
    ∧ (next_row ',' [.intTy] (mkStream line789)).map Prod.fst = .ok [CVal.vInt 7]) :=
  c8_excess_segments_discarded ',' [FieldTy.intTy] [['7'], ['8'], ['9']]
    (by decide) (by decide) (by decide) (by decide)

/-- C9: `operator!=` returns true unless both cursors are Exhausted (both
reader pointers null) or both are Active and bound to the identical reader
instance; consequently the `end()` sentinel is equal (NotEqual false)
exactly to the Exhausted cursors — never to an Active one. -/
theorem c9_neq_characterization (tys : List FieldTy) (a b : CSVIterator) :
    (iterNeq a b = true
      ↔ ¬ ((a.reader = none ∧ b.reader = none)
            ∨ ∃ r, a.reader = some r ∧ b.reader = some r))
    ∧ (iterNeq (endCSV tys) b = false ↔ b.reader = none) := by
  cases ha : a.reader <;> cases hb : b.reader <;>
    simp [iterNeq, endCSV, ha, hb, bne]
  exact ne_comm

/-- C10: `has_next_row` is a const observation (`!stream_.eof()` reads the
stream flags only), so any number of consecutive calls with no intervening
advance leaves the reader/iterator state exactly as it was and every call
returns the same boolean. -/
theorem c10_has_next_row_idempotent (st : MState) (n : Nat) :
    hasNextCalls n st = (List.replicate n (has_next_row st.stream), st) := by
  induction n with
  | zero => rfl
  | succ n ih => simp [hasNextCalls, has_next_row_st, has_next_row, List.replicate, ih]
